import Mathlib

/-!
Verification of the GAGB parlay settlement and best-odds logic.

Shallow embedding of `backend/app/services/parlay_service.py`
(`_determine_bet_status`, `_determine_parlay_status`,
`update_parlay_statuses`) and of the best-odds selection in
`backend/app/api/routes/odds.py` (`get_best_odds`).

Scores are `Int` (nullable columns become `Option`), monetary lines and
prices are `ℚ` (the SQL `Float` columns hold exact half-point lines and
integer prices; all the code does with them is compare and add, which ℚ
models exactly).  The one call to `random.random() < 0.5` in the
player-prop branch is modelled by an explicit boolean `coin` parameter
(`true` means the drawn number was below 0.5); the sweeper receives the
sequence of draws as an oracle `coins : Bet → Bool`.
-/

namespace GAGB

/-- Row of the `games` table (`backend/app/core/models.py`, class `Game`):
the fields the settlement logic reads. -/
structure Game where
  id : Nat
  status : String
  home_score : Option Int
  away_score : Option Int
deriving DecidableEq, Repr

/-- Row of the `odds` table (`backend/app/core/models.py`, class `Odds`):
the fields the settlement and best-odds logic read. -/
structure OddsRec where
  game_id : Nat
  sportsbook : String
  home_moneyline : Option ℚ
  away_moneyline : Option ℚ
  home_spread : Option ℚ
  away_spread : Option ℚ
  home_spread_odds : Option ℚ
  away_spread_odds : Option ℚ
  over_under : Option ℚ
  over_odds : Option ℚ
  under_odds : Option ℚ
deriving DecidableEq, Repr

/-- Row of the `bets` table (`backend/app/core/models.py`, class `Bet`):
the fields the settlement logic reads. -/
structure Bet where
  parlay_id : Nat
  game_id : Nat
  bet_type : String
  selection : String
  status : String
deriving DecidableEq, Repr

/-- Row of the `parlays` table (class `Parlay`): the fields the sweeper reads. -/
structure Parlay where
  id : Nat
  status : String
deriving DecidableEq, Repr

/-- The backing store: the four tables the settlement logic queries. -/
structure Store where
  games : List Game
  odds : List OddsRec
  parlays : List Parlay
  bets : List Bet
deriving DecidableEq, Repr

/-- `db.query(Game).filter(Game.id == gid).first()`. -/
def gameOf (st : Store) (gid : Nat) : Option Game :=
  st.games.find? (fun g => g.id == gid)

/-- `db.query(Odds).filter(Odds.game_id == gid, Odds.sportsbook == "DraftKings").first()`
— the reference-book lookup used for spread and total settlement. -/
def dkOdds (st : Store) (gid : Nat) : Option OddsRec :=
  st.odds.find? (fun o => o.game_id == gid && o.sportsbook == "DraftKings")

/-- `ParlayService._determine_bet_status` (parlay_service.py lines 213-317).
`coin` stands for the player-prop branch's `random.random() < 0.5` draw. -/
def determineBetStatus (coin : Bool) (st : Store) (bet : Bet) : String :=
  match gameOf st bet.game_id with
  | none => "pending"
  | some game =>
    if !(game.status == "finished") then "pending"
    else
      match game.home_score, game.away_score with
      | some home_score, some away_score =>
        if bet.bet_type == "moneyline" then
          if bet.selection == "home" then
            if home_score > away_score then "won" else "lost"
          else if bet.selection == "away" then
            if away_score > home_score then "won" else "lost"
          else "pending"
        else if bet.bet_type == "spread" then
          match dkOdds st game.id with
          | none => "pending"
          | some odds =>
            if bet.selection == "home" then
              match odds.home_spread with
              | none => "pending"
              | some spread =>
                if (home_score : ℚ) + spread > (away_score : ℚ) then "won"
                else if (home_score : ℚ) + spread < (away_score : ℚ) then "lost"
                else "push"
            else if bet.selection == "away" then
              match odds.away_spread with
              | none => "pending"
              | some spread =>
                if (away_score : ℚ) + spread > (home_score : ℚ) then "won"
                else if (away_score : ℚ) + spread < (home_score : ℚ) then "lost"
                else "push"
            else "pending"
        else if bet.bet_type == "over_under" then
          match dkOdds st game.id with
          | none => "pending"
          | some odds =>
            match odds.over_under with
            | none => "pending"
            | some over_under =>
              if bet.selection == "over" then
                if (home_score : ℚ) + (away_score : ℚ) > over_under then "won"
                else if (home_score : ℚ) + (away_score : ℚ) < over_under then "lost"
                else "push"
              else if bet.selection == "under" then
                if (home_score : ℚ) + (away_score : ℚ) < over_under then "won"
                else if (home_score : ℚ) + (away_score : ℚ) > over_under then "lost"
                else "push"
              else "pending"
        else if bet.bet_type == "player_prop" then
          if coin then "won" else "lost"
        else "pending"
      | _, _ => "pending"

/-- `ParlayService._determine_parlay_status` (parlay_service.py lines 319-345). -/
def determineParlayStatus (bets : List Bet) : String :=
  if bets.isEmpty then "pending"
  else if bets.any (fun b => b.status == "pending") then "pending"
  else
    let has_push := bets.any (fun b => b.status == "push")
    let all_won := bets.all (fun b => b.status == "won" || b.status == "push")
    if all_won then
      if has_push then "partially_won" else "won"
    else "lost"

/-- The sweeper's per-parlay pre-check (parlay_service.py lines 117-122):
every bet of the parlay references an existing game whose status is
`"finished"`.  Score presence is not part of the check. -/
def allGamesFinished (st : Store) (pid : Nat) : Bool :=
  (st.bets.filter (fun b => b.parlay_id == pid)).all
    (fun b =>
      match gameOf st b.game_id with
      | some g => g.status == "finished"
      | none => false)

/-- The loop body of `ParlayService.update_parlay_statuses` (lines 112-134):
walk the parlays, and for each currently-pending one whose games are all
finished, rewrite its bets' statuses, recompute the parlay status from the
rewritten bets, and count it.  The bet list is threaded as the mutable
store of bet rows; lookups (`allGamesFinished`, `determineBetStatus`) go
through `st`, whose game and odds tables the loop never modifies and whose
bet rows it only restatuses (neither query reads a bet's status). -/
def processParlays (coins : Bet → Bool) (st : Store) :
    List Parlay → List Bet → List Parlay × List Bet × Nat
  | [], bets => ([], bets, 0)
  | p :: rest, bets =>
    if p.status == "pending" && allGamesFinished st p.id then
      let bets' := bets.map (fun b =>
        if b.parlay_id == p.id then
          { b with status := determineBetStatus (coins b) st b }
        else b)
      let r := processParlays coins st rest bets'
      ({ p with
          status := determineParlayStatus
            (bets'.filter (fun b => b.parlay_id == p.id)) } :: r.1,
        r.2.1, r.2.2 + 1)
    else
      let r := processParlays coins st rest bets
      (p :: r.1, r.2.1, r.2.2)

/-- `ParlayService.update_parlay_statuses` (parlay_service.py lines 96-138):
returns the store after the sweep and the returned `updated_count`.
(The source first filters the pending parlays and then re-checks nothing
about the skipped ones; iterating all parlays under the combined guard
`status == "pending" and all_games_finished` is the same traversal.) -/
def updateParlayStatuses (coins : Bet → Bool) (st : Store) : Store × Nat :=
  let r := processParlays coins st st.parlays st.bets
  (⟨st.games, st.odds, r.1, r.2.1⟩, r.2.2)

/-! ### Helper forms of the sweeper used to state and prove its properties -/

/-- The sweeper's combined per-parlay guard (parlay_service.py lines
109-124): the parlay is currently pending and all its games are finished. -/
def procP (st : Store) (p : Parlay) : Bool :=
  p.status == "pending" && allGamesFinished st p.id

/-- Some parlay with this id passes the sweeper's guard, so the bets
bearing this `parlay_id` are rewritten. -/
def idProcessed (st : Store) (i : Nat) : Bool :=
  st.parlays.any (fun p => p.id == i && procP st p)

/-- Rewriting one bet's status the way a processed parlay's bets are
rewritten.  Both coin values agree on every non-player-prop bet, so `true`
serves as the canonical draw in deterministic reasoning. -/
def resettle (st : Store) (b : Bet) : Bet :=
  { b with status := determineBetStatus true st b }

/-- No bet of the list is a player-prop leg (the only bet type whose
settlement consults the random draw). -/
def propFree (l : List Bet) : Bool :=
  l.all (fun b => !(b.bet_type == "player_prop"))

/-- No bet in the store is a player-prop leg. -/
def noProps (st : Store) : Bool :=
  propFree st.bets

/-- The status the sweeper assigns to a processed parlay with id `i`:
the parlay fold over its freshly resettled bets. -/
def sweepParlayStatus (st : Store) (i : Nat) : String :=
  determineParlayStatus
    ((st.bets.filter (fun b => b.parlay_id == i)).map (resettle st))

/-! ### Concrete fixtures used by the witness and counterexample theorems -/

/-- A finished game, home 4 away 2. -/
def gFin : Game := ⟨1, "finished", some 4, some 2⟩

/-- A finished game whose final scores were never written (the
data-integrity violation the spec discusses). -/
def gNull : Game := ⟨2, "finished", none, none⟩

/-- A game that has not started. -/
def gSched : Game := ⟨3, "scheduled", none, none⟩

/-- A DraftKings quote for `gFin`: home spread -3/2, total 13/2. -/
def oDK : OddsRec :=
  ⟨1, "DraftKings", some 120, some (-140), some (-3/2), some (3/2),
   some (-110), some (-105), some (13/2), some (-110), some (-110)⟩

/-- C1's failing input: a player-prop leg on the finished game `gFin`; the
store holds no player statistics anywhere (the schema has none). -/
def stC1 : Store :=
  ⟨[gFin], [oDK], [⟨1, "pending"⟩], [⟨1, 1, "player_prop", "over", "pending"⟩]⟩

/-- The player-prop bet of `stC1`. -/
def betC1 : Bet := ⟨1, 1, "player_prop", "over", "pending"⟩

/-- C2's first counterexample store: one pending parlay whose single leg
is a home-spread bet on the finished game `gFin`, with no DraftKings quote
in the store, so the leg settles `pending` forever while the guard passes. -/
def stC2a : Store :=
  ⟨[gFin], [], [⟨1, "pending"⟩], [⟨1, 1, "spread", "home", "pending"⟩]⟩

/-- C2's second counterexample store: the stuck spread leg of `stC2a` plus
a player-prop leg on the same finished game, so the parlay stays pending
and the prop leg is re-drawn on every sweep. -/
def stC2b : Store :=
  ⟨[gFin], [],
   [⟨1, "pending"⟩],
   [⟨1, 1, "spread", "home", "pending"⟩, ⟨1, 1, "player_prop", "over", "pending"⟩]⟩

/-- C3's counterexample store: one pending parlay whose single leg is a
total bet on `gFin`, quoted by a DraftKings row whose `over_under` column
is null, so the leg settles `pending` while the parlay is still counted. -/
def stC3 : Store :=
  ⟨[gFin],
   [⟨1, "DraftKings", some 120, some (-140), none, none, none, none, none, none, none⟩],
   [⟨1, "pending"⟩], [⟨1, 1, "over_under", "over", "pending"⟩]⟩

/-- C4's counterexample store: a pending parlay with a moneyline leg on
the finished-and-scored `gFin` and another on the finished-but-unscored
`gNull`; both games count as finished for the guard. -/
def stC4 : Store :=
  ⟨[gFin, gNull], [], [⟨1, "pending"⟩],
   [⟨1, 1, "moneyline", "home", "pending"⟩, ⟨1, 2, "moneyline", "home", "pending"⟩]⟩

/-- C4's witness store: a pending parlay on the not-yet-started game
`gSched`, which the sweeper must skip untouched. -/
def stC4w : Store :=
  ⟨[gSched], [], [⟨1, "pending"⟩], [⟨1, 3, "moneyline", "home", "pending"⟩]⟩

/-- C5's counterexample store: a moneyline leg on the finished game with
null scores, and a player-prop leg on the finished, scored game. -/
def stC5 : Store :=
  ⟨[gFin, gNull], [oDK], [⟨1, "pending"⟩],
   [⟨1, 2, "moneyline", "home", "pending"⟩, ⟨1, 1, "player_prop", "over", "pending"⟩]⟩

/-- A bet on a game id absent from the store, for the C5 witness. -/
def betNoGame : Bet := ⟨1, 9, "moneyline", "home", "pending"⟩

/-- A finished game that ended in a tie, 3-3. -/
def gTie : Game := ⟨5, "finished", some 3, some 3⟩

/-- Store holding only the tied game. -/
def stTie : Store := ⟨[gTie], [], [], []⟩

/-- A home moneyline bet on the tied game. -/
def betTieHome : Bet := ⟨1, 5, "moneyline", "home", "pending"⟩

/-- A home spread bet on `gFin`, for the C7 witness. -/
def betSpreadHome : Bet := ⟨1, 1, "spread", "home", "pending"⟩

/-- An over bet on `gFin`, for the C8 witness. -/
def betOver : Bet := ⟨1, 1, "over_under", "over", "pending"⟩

/-- An under bet on `gFin`, for the C8 witness. -/
def betUnder : Bet := ⟨1, 1, "over_under", "under", "pending"⟩

/-- A settled leg list (one won, one push), for the C6 witness. -/
def wBets : List Bet :=
  [⟨1, 1, "moneyline", "home", "won"⟩, ⟨1, 1, "spread", "home", "push"⟩]

/-! ### Best-odds selection (`backend/app/api/routes/odds.py`, `get_best_odds`)

The endpoint keeps six independent "best so far" records, one per market,
each holding the winning price, line (for spread/total markets) and
sportsbook; the record starts with every field `None` and its fields are
always written together, so each record is modelled as an `Option` of a
fully populated quote.  The six updates do not interact, so the single
pass over `odds_list` is modelled as six folds. -/

/-- A moneyline "best so far" record: `{"odds": ..., "sportsbook": ...}`. -/
structure MoneylineQuote where
  odds : ℚ
  sportsbook : String
deriving DecidableEq, Repr

/-- A spread "best so far" record: `{"spread": ..., "odds": ..., "sportsbook": ...}`. -/
structure SpreadQuote where
  spread : ℚ
  odds : ℚ
  sportsbook : String
deriving DecidableEq, Repr

/-- A total "best so far" record: `{"total": ..., "odds": ..., "sportsbook": ...}`. -/
structure TotalQuote where
  total : ℚ
  odds : ℚ
  sportsbook : String
deriving DecidableEq, Repr

/-- Home moneyline update (odds.py lines 149-153): take the quote when the
field is populated and the record is empty or the price is strictly higher. -/
def bestHomeMoneylineStep (cur : Option MoneylineQuote) (o : OddsRec) :
    Option MoneylineQuote :=
  match o.home_moneyline with
  | none => cur
  | some ml =>
    match cur with
    | none => some ⟨ml, o.sportsbook⟩
    | some c => if ml > c.odds then some ⟨ml, o.sportsbook⟩ else cur

/-- Away moneyline update (odds.py lines 155-159). -/
def bestAwayMoneylineStep (cur : Option MoneylineQuote) (o : OddsRec) :
    Option MoneylineQuote :=
  match o.away_moneyline with
  | none => cur
  | some ml =>
    match cur with
    | none => some ⟨ml, o.sportsbook⟩
    | some c => if ml > c.odds then some ⟨ml, o.sportsbook⟩ else cur

/-- Home spread update (odds.py lines 161-168): considered only when both
the spread and its price are populated; replaces when the record is empty,
or at an identical spread with a strictly higher price, or at a strictly
larger (algebraically) spread. -/
def bestHomeSpreadStep (cur : Option SpreadQuote) (o : OddsRec) :
    Option SpreadQuote :=
  match o.home_spread, o.home_spread_odds with
  | some s, some pr =>
    (match cur with
     | none => some ⟨s, pr, o.sportsbook⟩
     | some c =>
       if (s = c.spread ∧ pr > c.odds) ∨ s > c.spread then
         some ⟨s, pr, o.sportsbook⟩
       else cur)
  | _, _ => cur

/-- Away spread update (odds.py lines 170-177): same rule on the away fields. -/
def bestAwaySpreadStep (cur : Option SpreadQuote) (o : OddsRec) :
    Option SpreadQuote :=
  match o.away_spread, o.away_spread_odds with
  | some s, some pr =>
    (match cur with
     | none => some ⟨s, pr, o.sportsbook⟩
     | some c =>
       if (s = c.spread ∧ pr > c.odds) ∨ s > c.spread then
         some ⟨s, pr, o.sportsbook⟩
       else cur)
  | _, _ => cur

/-- Over update (odds.py lines 179-186): replaces at an identical total
with a strictly higher price, or at a strictly smaller total. -/
def bestOverStep (cur : Option TotalQuote) (o : OddsRec) : Option TotalQuote :=
  match o.over_under, o.over_odds with
  | some t, some pr =>
    (match cur with
     | none => some ⟨t, pr, o.sportsbook⟩
     | some c =>
       if (t = c.total ∧ pr > c.odds) ∨ t < c.total then
         some ⟨t, pr, o.sportsbook⟩
       else cur)
  | _, _ => cur

/-- Under update (odds.py lines 188-195): replaces at an identical total
with a strictly higher price, or at a strictly larger total. -/
def bestUnderStep (cur : Option TotalQuote) (o : OddsRec) : Option TotalQuote :=
  match o.over_under, o.under_odds with
  | some t, some pr =>
    (match cur with
     | none => some ⟨t, pr, o.sportsbook⟩
     | some c =>
       if (t = c.total ∧ pr > c.odds) ∨ t > c.total then
         some ⟨t, pr, o.sportsbook⟩
       else cur)
  | _, _ => cur

/-- The `best_odds` dictionary returned by `get_best_odds`. -/
structure BestOdds where
  home_moneyline : Option MoneylineQuote
  away_moneyline : Option MoneylineQuote
  home_spread : Option SpreadQuote
  away_spread : Option SpreadQuote
  over : Option TotalQuote
  under : Option TotalQuote
deriving DecidableEq, Repr

/-- `get_best_odds` (odds.py lines 140-222): one pass over the game's
quotes updating the six records, here written as six folds. -/
def getBestOdds (odds_list : List OddsRec) : BestOdds :=
  ⟨odds_list.foldl bestHomeMoneylineStep none,
   odds_list.foldl bestAwayMoneylineStep none,
   odds_list.foldl bestHomeSpreadStep none,
   odds_list.foldl bestAwaySpreadStep none,
   odds_list.foldl bestOverStep none,
   odds_list.foldl bestUnderStep none⟩

/-- The home-moneyline candidate a quote offers, when populated. -/
def homeMoneylineOf (o : OddsRec) : Option MoneylineQuote :=
  match o.home_moneyline with
  | none => none
  | some ml => some ⟨ml, o.sportsbook⟩

/-- The away-moneyline candidate a quote offers, when populated. -/
def awayMoneylineOf (o : OddsRec) : Option MoneylineQuote :=
  match o.away_moneyline with
  | none => none
  | some ml => some ⟨ml, o.sportsbook⟩

/-- The home-spread candidate a quote offers: both the line and its price
must be populated (odds.py line 162). -/
def homeSpreadOf (o : OddsRec) : Option SpreadQuote :=
  match o.home_spread, o.home_spread_odds with
  | some s, some pr => some ⟨s, pr, o.sportsbook⟩
  | _, _ => none

/-- The away-spread candidate a quote offers (odds.py line 171). -/
def awaySpreadOf (o : OddsRec) : Option SpreadQuote :=
  match o.away_spread, o.away_spread_odds with
  | some s, some pr => some ⟨s, pr, o.sportsbook⟩
  | _, _ => none

/-- The over candidate a quote offers: the total and the over price must
be populated (odds.py line 180). -/
def overOf (o : OddsRec) : Option TotalQuote :=
  match o.over_under, o.over_odds with
  | some t, some pr => some ⟨t, pr, o.sportsbook⟩
  | _, _ => none

/-- The under candidate a quote offers (odds.py line 189). -/
def underOf (o : OddsRec) : Option TotalQuote :=
  match o.over_under, o.under_odds with
  | some t, some pr => some ⟨t, pr, o.sportsbook⟩
  | _, _ => none

/-- The common shape of the six per-market updates: skip a quote that
does not populate the market; adopt a candidate over an empty record;
replace a held record exactly when `repl` holds of (held, candidate). -/
def selStep {α : Type} (extract : OddsRec → Option α) (repl : α → α → Bool) :
    Option α → OddsRec → Option α :=
  fun cur o =>
    match extract o with
    | none => cur
    | some c =>
      match cur with
      | none => some c
      | some a => if repl a c then some c else some a

/-! ### Properties of the settlement and sweep logic -/

/-- Settlement of a non-player-prop bet does not consult the random draw. -/
theorem determineBetStatus_coin_irrel (c c' : Bool) (st : Store) (b : Bet)
    (h : ¬ b.bet_type = "player_prop") :
    determineBetStatus c st b = determineBetStatus c' st b := by
  unfold determineBetStatus
  have hb : (b.bet_type == "player_prop") = false := by simp [h]
  simp only [hb, Bool.false_eq_true, if_false]

/-- Settlement reads only the game and odds tables and the bet's
`game_id`, `bet_type` and `selection`; never a status or the bet tables. -/
theorem determineBetStatus_congr (c : Bool) (st st' : Store) (b b' : Bet)
    (hg : st'.games = st.games) (ho : st'.odds = st.odds)
    (h1 : b'.game_id = b.game_id) (h2 : b'.bet_type = b.bet_type)
    (h3 : b'.selection = b.selection) :
    determineBetStatus c st' b' = determineBetStatus c st b := by
  unfold determineBetStatus gameOf dkOdds
  rw [hg, ho, h1, h2, h3]

theorem resettle_parlay_id (st : Store) (b : Bet) :
    (resettle st b).parlay_id = b.parlay_id := rfl

theorem resettle_bet_type (st : Store) (b : Bet) :
    (resettle st b).bet_type = b.bet_type := rfl

theorem resettle_idem (st : Store) (b : Bet) :
    resettle st (resettle st b) = resettle st b := by
  unfold resettle
  rw [determineBetStatus_congr true st st b ({ b with status := determineBetStatus true st b })
    rfl rfl rfl rfl rfl]

/-- `filter` slides past a `map` that leaves the filtered key unchanged. -/
theorem filter_key_map {α : Type} (f : α → α) (p : α → Bool)
    (h : ∀ a, p (f a) = p a) :
    ∀ l : List α, (l.map f).filter p = (l.filter p).map f := by
  intro l
  induction l with
  | nil => rfl
  | cons a l ih =>
    simp only [List.map_cons, List.filter_cons, h a]
    split <;> simp [ih]

/-- Bets after the sweeper's loop: every bet whose parlay id passes the
guard for some traversed parlay is resettled, the rest are untouched
(player-prop-free stores; settlement is then draw-independent). -/
theorem processParlays_bets_eq (coins : Bet → Bool) (st : Store) :
    ∀ (ps : List Parlay) (bets : List Bet), propFree bets = true →
    (processParlays coins st ps bets).2.1 =
      bets.map (fun b =>
        if ps.any (fun p => p.id == b.parlay_id && procP st p) then resettle st b
        else b) := by
  intro ps
  induction ps with
  | nil =>
    intro bets _
    simp [processParlays]
  | cons p rest ih =>
    intro bets hbf
    have hall := List.all_eq_true.mp hbf
    by_cases hpp : procP st p = true
    · rw [processParlays,
        if_pos (show (p.status == "pending" && allGamesFinished st p.id) = true from hpp)]
      have hbf' : propFree (bets.map (fun b =>
          if b.parlay_id == p.id then
            { b with status := determineBetStatus (coins b) st b }
          else b)) = true := by
        rw [propFree, List.all_eq_true]
        intro b hb
        obtain ⟨b₀, hb₀, rfl⟩ := List.mem_map.mp hb
        have := hall b₀ hb₀
        split <;> simpa using this
      rw [ih _ hbf']
      rw [List.map_map]
      apply List.map_congr_left
      intro b hb
      have hnp : ¬ b.bet_type = "player_prop" := by simpa using hall b hb
      simp only [Function.comp]
      by_cases hpid : (b.parlay_id == p.id) = true
      · rw [if_pos hpid]
        have hres : { b with status := determineBetStatus (coins b) st b } = resettle st b := by
          rw [resettle, determineBetStatus_coin_irrel (coins b) true st b hnp]
        rw [hres]
        have hany : ((p :: rest).any fun q => q.id == b.parlay_id && procP st q) = true := by
          rw [List.any_cons]
          have : (p.id == b.parlay_id) = true := by
            rw [beq_iff_eq] at hpid ⊢
            exact hpid.symm
          simp [this, hpp]
        rw [if_pos hany]
        by_cases hrest : (rest.any fun q => q.id == (resettle st b).parlay_id && procP st q) = true
        · rw [if_pos hrest, resettle_idem]
        · rw [if_neg hrest]
      · rw [if_neg hpid]
        have hpz : (p.id == b.parlay_id) = false := by
          simp only [beq_iff_eq] at hpid
          simp only [beq_eq_false_iff_ne, ne_eq]
          exact fun hx => hpid hx.symm
        rw [List.any_cons]
        simp only [hpz, Bool.false_and, Bool.false_or]
    · have hppf : (p.status == "pending" && allGamesFinished st p.id) = false := by
        rw [← procP]
        simpa using hpp
      rw [processParlays, hppf]
      simp only [Bool.false_eq_true, if_false]
      rw [ih _ hbf]
      apply List.map_congr_left
      intro b _
      rw [List.any_cons]
      have : (p.id == b.parlay_id && procP st p) = false := by
        simp [hpp]
      simp only [this, Bool.false_or]

/-- The loop's counter counts exactly the traversed parlays that pass the
guard, independently of the bet rows. -/
theorem processParlays_count_eq (coins : Bet → Bool) (st : Store) :
    ∀ (ps : List Parlay) (bets : List Bet),
    (processParlays coins st ps bets).2.2 = (ps.filter (procP st)).length := by
  intro ps
  induction ps with
  | nil => intro bets; simp [processParlays]
  | cons p rest ih =>
    intro bets
    by_cases hpp : procP st p = true
    · rw [processParlays,
        if_pos (show (p.status == "pending" && allGamesFinished st p.id) = true from hpp)]
      simp only [List.filter_cons, hpp, if_pos]
      rw [List.length_cons, ih]
    · have hppf : (p.status == "pending" && allGamesFinished st p.id) = false := by
        rw [← procP]
        simpa using hpp
      rw [processParlays, hppf]
      simp only [Bool.false_eq_true, if_false]
      have : procP st p = false := by simpa using hpp
      simp only [List.filter_cons, this, Bool.false_eq_true, if_false]
      exact ih bets

/-- Parlays after the sweeper's loop: each guarded parlay's status is
recomputed from its freshly resettled bets, the rest are untouched
(player-prop-free stores). -/
theorem processParlays_parlays_eq (coins : Bet → Bool) (st : Store) :
    ∀ (ps : List Parlay) (bets : List Bet), propFree bets = true →
    (processParlays coins st ps bets).1 =
      ps.map (fun p =>
        if procP st p then
          { p with status :=
              determineParlayStatus ((bets.filter (fun b => b.parlay_id == p.id)).map (resettle st)) }
        else p) := by
  intro ps
  induction ps with
  | nil => intro bets _; simp [processParlays]
  | cons p rest ih =>
    intro bets hbf
    have hall := List.all_eq_true.mp hbf
    by_cases hpp : procP st p = true
    · rw [processParlays,
        if_pos (show (p.status == "pending" && allGamesFinished st p.id) = true from hpp)]
      have hg : ∀ b ∈ bets,
          (if (b.parlay_id == p.id) = true then
            { b with status := determineBetStatus (coins b) st b }
          else b) = (if (b.parlay_id == p.id) = true then resettle st b else b) := by
        intro b hb
        have hnp : ¬ b.bet_type = "player_prop" := by simpa using hall b hb
        split
        · rw [resettle, determineBetStatus_coin_irrel (coins b) true st b hnp]
        · rfl
      have hbf' : propFree (bets.map (fun b =>
          if b.parlay_id == p.id then
            { b with status := determineBetStatus (coins b) st b }
          else b)) = true := by
        rw [propFree, List.all_eq_true]
        intro b hb
        obtain ⟨b₀, hb₀, rfl⟩ := List.mem_map.mp hb
        have := hall b₀ hb₀
        split <;> simpa using this
      simp only []
      rw [ih _ hbf']
      rw [List.map_cons]
      congr 1
      · -- the head parlay's new status
        rw [if_pos hpp]
        congr 1
        rw [filter_key_map _ _ (fun b => by split <;> rfl)]
        congr 1
        apply List.map_congr_left
        intro b hb
        have hbm : b ∈ bets := (List.mem_filter.mp hb).1
        have hpid : (b.parlay_id == p.id) = true := (List.mem_filter.mp hb).2
        rw [if_pos hpid]
        have hnp : ¬ b.bet_type = "player_prop" := by simpa using hall b hbm
        rw [resettle, determineBetStatus_coin_irrel (coins b) true st b hnp]
      · -- the tail
        apply List.map_congr_left
        intro q _
        by_cases hq : procP st q = true
        · rw [if_pos hq, if_pos hq]
          congr 2
          rw [filter_key_map _ _ (fun b => by split <;> rfl)]
          rw [List.map_map]
          apply List.map_congr_left
          intro b hb
          have hbm : b ∈ bets := (List.mem_filter.mp hb).1
          have hnp : ¬ b.bet_type = "player_prop" := by simpa using hall b hbm
          simp only [Function.comp]
          by_cases hpid : (b.parlay_id == p.id) = true
          · rw [if_pos hpid]
            rw [show ({ b with status := determineBetStatus (coins b) st b }) = resettle st b by
              rw [resettle, determineBetStatus_coin_irrel (coins b) true st b hnp]]
            rw [resettle_idem]
          · rw [if_neg hpid]
        · rw [if_neg hq, if_neg hq]
    · have hppf : (p.status == "pending" && allGamesFinished st p.id) = false := by
        rw [← procP]
        simpa using hpp
      rw [processParlays, hppf]
      simp only [Bool.false_eq_true, if_false]
      rw [ih _ hbf]
      rw [List.map_cons]
      congr 1
      rw [if_neg (by simpa using hpp)]

/-- A map that fixes every member is the identity. -/
theorem map_eq_self_of_mem {α : Type} {f : α → α} {l : List α}
    (h : ∀ a ∈ l, f a = a) : l.map f = l := by
  induction l with
  | nil => rfl
  | cons a l ih => rw [List.map_cons, h a (by simp), ih (fun x hx => h x (by simp [hx]))]

/-- `all` only looks at the predicate's values on members. -/
theorem all_congr_mem {α : Type} {p q : α → Bool} {l : List α}
    (h : ∀ a ∈ l, p a = q a) : l.all p = l.all q := by
  induction l with
  | nil => rfl
  | cons a l ih =>
    rw [List.all_cons, List.all_cons, h a (by simp), ih (fun x hx => h x (by simp [hx]))]

theorem sweep_games (coins : Bet → Bool) (st : Store) :
    (updateParlayStatuses coins st).1.games = st.games := rfl

theorem sweep_odds (coins : Bet → Bool) (st : Store) :
    (updateParlayStatuses coins st).1.odds = st.odds := rfl

/-- Store-level form of `processParlays_bets_eq`. -/
theorem sweep_bets (coins : Bet → Bool) (st : Store) (h : noProps st = true) :
    (updateParlayStatuses coins st).1.bets =
      st.bets.map (fun b => if idProcessed st b.parlay_id then resettle st b else b) := by
  show (processParlays coins st st.parlays st.bets).2.1 = _
  rw [processParlays_bets_eq coins st st.parlays st.bets h]
  rfl

/-- Store-level form of `processParlays_parlays_eq`. -/
theorem sweep_parlays (coins : Bet → Bool) (st : Store) (h : noProps st = true) :
    (updateParlayStatuses coins st).1.parlays =
      st.parlays.map (fun p =>
        if procP st p then { p with status := sweepParlayStatus st p.id } else p) := by
  show (processParlays coins st st.parlays st.bets).1 = _
  rw [processParlays_parlays_eq coins st st.parlays st.bets h]
  rfl

/-- Store-level form of `processParlays_count_eq`. -/
theorem sweep_count (coins : Bet → Bool) (st : Store) :
    (updateParlayStatuses coins st).2 = (st.parlays.filter (procP st)).length :=
  processParlays_count_eq coins st st.parlays st.bets

/-- C2 (amended): on a store with no player-prop legs, invoking the sweeper a
second time with unchanged game, odds and score data leaves the whole store
— in particular every bet and parlay status — exactly as the first call left
it.  The original claim's "second call reports zero additional transitions"
is false (see the counterexample): the counter recounts parlays that stay
pending with all games finished, and a player-prop leg of a stuck parlay
would even be re-drawn, which forces the no-player-prop restriction. -/
theorem c2_sweep_idempotent (coins1 coins2 : Bet → Bool) (st : Store) (h : noProps st = true) :
    (updateParlayStatuses coins2 (updateParlayStatuses coins1 st).1).1
      = (updateParlayStatuses coins1 st).1 := by
  set st1 := (updateParlayStatuses coins1 st).1 with hst1def
  have hG : st1.games = st.games := rfl
  have hO : st1.odds = st.odds := rfl
  have hBets : st1.bets = st.bets.map
      (fun b => if idProcessed st b.parlay_id then resettle st b else b) :=
    sweep_bets coins1 st h
  have hPar : st1.parlays = st.parlays.map
      (fun p => if procP st p then { p with status := sweepParlayStatus st p.id } else p) :=
    sweep_parlays coins1 st h
  have hax := h
  rw [noProps, propFree] at hax
  have hall := List.all_eq_true.mp hax
  have h1 : noProps st1 = true := by
    rw [noProps, propFree, List.all_eq_true]
    intro b hb
    rw [hBets] at hb
    obtain ⟨b0, hb0, rfl⟩ := List.mem_map.mp hb
    have := hall b0 hb0
    split <;> simpa using this
  have hdb : ∀ (c : Bool) (b : Bet), determineBetStatus c st1 b = determineBetStatus c st b :=
    fun c b => determineBetStatus_congr c st st1 b b hG hO rfl rfl rfl
  have hres1 : ∀ b, resettle st1 b = resettle st b := by
    intro b
    rw [resettle, resettle, hdb]
  have hAGF : ∀ i, allGamesFinished st1 i = allGamesFinished st i := by
    intro i
    rw [allGamesFinished, allGamesFinished, hBets,
      filter_key_map _ _ (fun b => by split <;> rfl), List.all_map]
    apply all_congr_mem
    intro b _
    simp only [Function.comp]
    have hg1 : gameOf st1 ((if idProcessed st b.parlay_id = true then resettle st b
        else b).game_id) = gameOf st b.game_id := by
      split <;> rfl
    rw [hg1]
  have hprocElim : ∀ p1, p1 ∈ st1.parlays → procP st1 p1 = true →
      idProcessed st p1.id = true ∧ p1.status = "pending"
        ∧ sweepParlayStatus st p1.id = "pending" := by
    intro p1 hmem hproc
    rw [hPar] at hmem
    obtain ⟨p, hpmem, hpeq⟩ := List.mem_map.mp hmem
    rw [procP, Bool.and_eq_true, beq_iff_eq] at hproc
    obtain ⟨hstat, hagf⟩ := hproc
    rw [hAGF] at hagf
    by_cases hpp : procP st p = true
    · rw [if_pos hpp] at hpeq
      have hid : p1.id = p.id := by rw [← hpeq]
      have hst : p1.status = sweepParlayStatus st p.id := by rw [← hpeq]
      refine ⟨?_, hstat, ?_⟩
      · rw [idProcessed, List.any_eq_true]
        refine ⟨p, hpmem, ?_⟩
        rw [Bool.and_eq_true, beq_iff_eq]
        exact ⟨hid.symm, hpp⟩
      · rw [hid, ← hst]
        exact hstat
    · rw [if_neg hpp] at hpeq
      exfalso
      apply hpp
      rw [procP, Bool.and_eq_true, beq_iff_eq]
      rw [← hpeq] at hstat hagf
      exact ⟨hstat, hagf⟩
  have hSPS : ∀ i, idProcessed st i = true →
      sweepParlayStatus st1 i = sweepParlayStatus st i := by
    intro i hip
    rw [sweepParlayStatus, sweepParlayStatus, hBets,
      filter_key_map _ _ (fun b => by split <;> rfl), List.map_map]
    apply congrArg
    apply List.map_congr_left
    intro b hb
    have hpid : (b.parlay_id == i) = true := (List.mem_filter.mp hb).2
    have hipb : idProcessed st b.parlay_id = true := by
      rw [beq_iff_eq] at hpid
      rw [hpid]
      exact hip
    simp only [Function.comp]
    rw [if_pos hipb, hres1, resettle_idem]
  have hBfix : (updateParlayStatuses coins2 st1).1.bets = st1.bets := by
    rw [sweep_bets coins2 st1 h1]
    apply map_eq_self_of_mem
    intro b hb
    by_cases hip1 : idProcessed st1 b.parlay_id = true
    · rw [if_pos hip1]
      have hipelim : idProcessed st b.parlay_id = true := by
        rw [idProcessed, List.any_eq_true] at hip1
        obtain ⟨p1, hp1, hcond⟩ := hip1
        rw [Bool.and_eq_true, beq_iff_eq] at hcond
        obtain ⟨hid, hproc1⟩ := hcond
        rw [← hid]
        exact (hprocElim p1 hp1 hproc1).1
      rw [hBets] at hb
      obtain ⟨b0, hb0, rfl⟩ := List.mem_map.mp hb
      have hpid0 :
          ((if idProcessed st b0.parlay_id = true then resettle st b0 else b0)).parlay_id
            = b0.parlay_id := by
        split <;> rfl
      rw [hpid0] at hipelim
      rw [if_pos hipelim]
      rw [hres1, resettle_idem]
    · rw [if_neg hip1]
  have hPfix : (updateParlayStatuses coins2 st1).1.parlays = st1.parlays := by
    rw [sweep_parlays coins2 st1 h1]
    apply map_eq_self_of_mem
    intro p1 hp1
    by_cases hproc1 : procP st1 p1 = true
    · rw [if_pos hproc1]
      obtain ⟨hip, hstat, hsps⟩ := hprocElim p1 hp1 hproc1
      rw [hSPS p1.id hip, hsps, ← hstat]
    · rw [if_neg hproc1]
  have hfin : (updateParlayStatuses coins2 st1).1 =
      (⟨(updateParlayStatuses coins2 st1).1.games, (updateParlayStatuses coins2 st1).1.odds,
        (updateParlayStatuses coins2 st1).1.parlays,
        (updateParlayStatuses coins2 st1).1.bets⟩ : Store) := rfl
  rw [hfin, hBfix, hPfix, sweep_games coins2 st1, sweep_odds coins2 st1]

/-- C3 (amended): the integer returned by the sweep equals the number of
pending parlays all of whose legs reference an existing game with status
"finished" — the parlays processed — whether or not their status actually
left "pending".  (The original "count of parlays transitioned out of
pending" is refuted by the counterexample.) -/
theorem c3_sweep_count_processed (coins : Bet → Bool) (st : Store) :
    (updateParlayStatuses coins st).2 =
      (st.parlays.filter
        (fun p => p.status == "pending" && allGamesFinished st p.id)).length :=
  sweep_count coins st

/-- C4 (amended): a parlay is skipped exactly when some leg's game is
missing or not "finished"; when every pending parlay has such a game the
sweep writes nothing at all and returns 0.  Score presence is not part of
the guard, so (see the counterexample) a parlay whose games are all
"finished" but whose scores are partly null is processed and can be left
partially evaluated. -/
theorem c4_sweep_skip_unfinished (coins : Bet → Bool) (st : Store)
    (h : ∀ p ∈ st.parlays, p.status = "pending" → allGamesFinished st p.id = false) :
    updateParlayStatuses coins st = (st, 0) := by
  have key : ∀ (ps : List Parlay) (bets : List Bet),
      (∀ p ∈ ps, (p.status == "pending" && allGamesFinished st p.id) = false) →
      processParlays coins st ps bets = (ps, bets, 0) := by
    intro ps
    induction ps with
    | nil => intro bets _; rfl
    | cons p rest ih =>
      intro bets hf
      rw [processParlays, hf p (by simp)]
      simp only [Bool.false_eq_true, if_false]
      rw [ih bets (fun q hq => hf q (by simp [hq]))]
  have hall : ∀ p ∈ st.parlays, (p.status == "pending" && allGamesFinished st p.id) = false := by
    intro p hp
    by_cases hps : p.status = "pending"
    · simp [h p hp hps]
    · simp [hps]
  show (let r := processParlays coins st st.parlays st.bets
    ((⟨st.games, st.odds, r.1, r.2.1⟩ : Store), r.2.2)) = (st, 0)
  rw [key st.parlays st.bets hall]

/-! ### Properties of the best-odds selection -/

theorem bestHomeMoneylineStep_eq :
    bestHomeMoneylineStep = selStep homeMoneylineOf (fun a c => decide (c.odds > a.odds)) := by
  funext cur o
  rw [bestHomeMoneylineStep, selStep, homeMoneylineOf]
  rcases o.home_moneyline with _ | ml
  · rfl
  · rcases cur with _ | a
    · rfl
    · simp only [decide_eq_true_eq]

theorem bestAwayMoneylineStep_eq :
    bestAwayMoneylineStep = selStep awayMoneylineOf (fun a c => decide (c.odds > a.odds)) := by
  funext cur o
  rw [bestAwayMoneylineStep, selStep, awayMoneylineOf]
  rcases o.away_moneyline with _ | ml
  · rfl
  · rcases cur with _ | a
    · rfl
    · simp only [decide_eq_true_eq]

theorem bestHomeSpreadStep_eq :
    bestHomeSpreadStep = selStep homeSpreadOf
      (fun a c => decide ((c.spread = a.spread ∧ c.odds > a.odds) ∨ c.spread > a.spread)) := by
  funext cur o
  rw [bestHomeSpreadStep, selStep, homeSpreadOf]
  rcases o.home_spread with _ | s <;> rcases o.home_spread_odds with _ | pr
  · rfl
  · rfl
  · rfl
  · rcases cur with _ | a
    · rfl
    · simp only [decide_eq_true_eq]

theorem bestAwaySpreadStep_eq :
    bestAwaySpreadStep = selStep awaySpreadOf
      (fun a c => decide ((c.spread = a.spread ∧ c.odds > a.odds) ∨ c.spread > a.spread)) := by
  funext cur o
  rw [bestAwaySpreadStep, selStep, awaySpreadOf]
  rcases o.away_spread with _ | s <;> rcases o.away_spread_odds with _ | pr
  · rfl
  · rfl
  · rfl
  · rcases cur with _ | a
    · rfl
    · simp only [decide_eq_true_eq]

theorem bestOverStep_eq :
    bestOverStep = selStep overOf
      (fun a c => decide ((c.total = a.total ∧ c.odds > a.odds) ∨ c.total < a.total)) := by
  funext cur o
  rw [bestOverStep, selStep, overOf]
  rcases o.over_under with _ | t <;> rcases o.over_odds with _ | pr
  · rfl
  · rfl
  · rfl
  · rcases cur with _ | a
    · rfl
    · simp only [decide_eq_true_eq]

theorem bestUnderStep_eq :
    bestUnderStep = selStep underOf
      (fun a c => decide ((c.total = a.total ∧ c.odds > a.odds) ∨ c.total > a.total)) := by
  funext cur o
  rw [bestUnderStep, selStep, underOf]
  rcases o.over_under with _ | t <;> rcases o.under_odds with _ | pr
  · rfl
  · rfl
  · rfl
  · rcases cur with _ | a
    · rfl
    · simp only [decide_eq_true_eq]

theorem selFold_some {α : Type} (extract : OddsRec → Option α) (repl : α → α → Bool) :
    ∀ (l : List OddsRec) (a : α),
      ∃ b, l.foldl (selStep extract repl) (some a) = some b := by
  intro l
  induction l with
  | nil => intro a; exact ⟨a, rfl⟩
  | cons o l ih =>
    intro a
    rw [List.foldl_cons]
    rcases hx : extract o with _ | c
    · rw [show selStep extract repl (some a) o = some a by rw [selStep, hx]]
      exact ih a
    · by_cases hr : repl a c = true
      · rw [show selStep extract repl (some a) o = some c by rw [selStep, hx]; simp [hr]]
        exact ih c
      · rw [show selStep extract repl (some a) o = some a by
          rw [selStep, hx]; simp only []; rw [if_neg hr]]
        exact ih a

theorem selFold_none_iff {α : Type} (extract : OddsRec → Option α) (repl : α → α → Bool) :
    ∀ l : List OddsRec,
      (l.foldl (selStep extract repl) none = none ↔ ∀ o ∈ l, extract o = none) := by
  intro l
  induction l with
  | nil => simp
  | cons o l ih =>
    rw [List.foldl_cons]
    rcases hx : extract o with _ | c
    · rw [show selStep extract repl none o = none by rw [selStep, hx]]
      rw [ih]
      constructor
      · intro hall o' ho'
        rcases List.mem_cons.mp ho' with rfl | ho'
        · exact hx
        · exact hall o' ho'
      · intro hall o' ho'
        exact hall o' (List.mem_cons_of_mem o ho')
    · rw [show selStep extract repl none o = some c by rw [selStep, hx]]
      obtain ⟨b, hb⟩ := selFold_some extract repl l c
      rw [hb]
      constructor
      · intro hcon
        exact absurd hcon (by simp)
      · intro hall
        have := hall o (by simp)
        rw [this] at hx
        exact absurd hx (by simp)

theorem selFold_bound {α : Type} (extract : OddsRec → Option α) (repl : α → α → Bool)
    (dom : α → α → Prop)
    (hrefl : ∀ a, dom a a)
    (hkeep : ∀ a c, repl a c = false → dom c a)
    (hrepl : ∀ a c, repl a c = true → dom a c)
    (htrans : ∀ a b c, dom a b → dom b c → dom a c) :
    ∀ (l : List OddsRec) (acc : Option α) (r : α),
      l.foldl (selStep extract repl) acc = some r →
      (∀ a, acc = some a → dom a r)
      ∧ (∀ o ∈ l, ∀ c, extract o = some c → dom c r) := by
  intro l
  induction l with
  | nil =>
    intro acc r hfold
    rw [List.foldl_nil] at hfold
    constructor
    · intro a ha
      rw [ha] at hfold
      exact (Option.some_injective _ hfold) ▸ hrefl a
    · intro o ho
      exact absurd ho (List.not_mem_nil o)
  | cons o l ih =>
    intro acc r hfold
    rw [List.foldl_cons] at hfold
    obtain ⟨ih1, ih2⟩ := ih (selStep extract repl acc o) r hfold
    have hstep_dom : ∀ a, acc = some a → dom a r := by
      intro a ha
      subst ha
      rcases hx : extract o with _ | c
      · exact ih1 a (by rw [selStep, hx])
      · by_cases hr : repl a c = true
        · have hc : dom c r := ih1 c (by rw [selStep, hx]; simp [hr])
          exact htrans a c r (hrepl a c hr) hc
        · exact ih1 a (by rw [selStep, hx]; simp only []; rw [if_neg hr])
    refine ⟨hstep_dom, ?_⟩
    intro o' ho' c hc
    rcases List.mem_cons.mp ho' with rfl | ho'
    · rcases hacc : acc with _ | a
      · exact ih1 c (by rw [hacc, selStep, hc])
      · by_cases hr : repl a c = true
        · exact ih1 c (by rw [hacc, selStep, hc]; simp [hr])
        · have ha : dom a r := ih1 a (by rw [hacc, selStep, hc]; simp only []; rw [if_neg hr])
          exact htrans c a r (hkeep a c (Bool.not_eq_true _ ▸ hr)) ha
    · exact ih2 o' ho' c hc

theorem selFold_attained {α : Type} (extract : OddsRec → Option α) (repl : α → α → Bool) :
    ∀ (l : List OddsRec) (acc : Option α) (r : α),
      l.foldl (selStep extract repl) acc = some r →
      acc = some r ∨ ∃ o ∈ l, extract o = some r := by
  intro l
  induction l with
  | nil =>
    intro acc r hfold
    rw [List.foldl_nil] at hfold
    exact Or.inl hfold
  | cons o l ih =>
    intro acc r hfold
    rw [List.foldl_cons] at hfold
    have := ih (selStep extract repl acc o) r hfold
    rcases hx : extract o with _ | c
    · rw [show selStep extract repl acc o = acc by rw [selStep, hx]] at this
      rcases this with h | ⟨o', ho', hc⟩
      · exact Or.inl h
      · exact Or.inr ⟨o', List.mem_cons_of_mem o ho', hc⟩
    · rcases hacc : acc with _ | a
      · rw [hacc] at this
        rw [show selStep extract repl none o = some c by rw [selStep, hx]] at this
        rcases this with h | ⟨o', ho', hc⟩
        · exact Or.inr ⟨o, by simp, by rw [hx, h]⟩
        · exact Or.inr ⟨o', List.mem_cons_of_mem o ho', hc⟩
      · rw [hacc] at this
        by_cases hr : repl a c = true
        · rw [show selStep extract repl (some a) o = some c by
            rw [selStep, hx]; simp [hr]] at this
          rcases this with h | ⟨o', ho', hc⟩
          · exact Or.inr ⟨o, by simp, by rw [hx, h]⟩
          · exact Or.inr ⟨o', List.mem_cons_of_mem o ho', hc⟩
        · rw [show selStep extract repl (some a) o = some a by
            rw [selStep, hx]; simp only []; rw [if_neg hr]] at this
          rcases this with h | ⟨o', ho', hc⟩
          · exact Or.inl (hacc ▸ h)
          · exact Or.inr ⟨o', List.mem_cons_of_mem o ho', hc⟩

theorem mlDom_keep (a c : MoneylineQuote)
    (h : (decide (c.odds > a.odds)) = false) : c.odds ≤ a.odds := by
  rw [decide_eq_false_iff_not] at h
  exact le_of_not_lt h

theorem mlDom_repl (a c : MoneylineQuote)
    (h : (decide (c.odds > a.odds)) = true) : a.odds ≤ c.odds := by
  rw [decide_eq_true_eq] at h
  exact le_of_lt h

theorem spreadDom_keep (a c : SpreadQuote)
    (h : (decide ((c.spread = a.spread ∧ c.odds > a.odds) ∨ c.spread > a.spread)) = false) :
    c.spread < a.spread ∨ (c.spread = a.spread ∧ c.odds ≤ a.odds) := by
  rw [decide_eq_false_iff_not] at h
  push_neg at h
  obtain ⟨h1, h2⟩ := h
  rcases lt_or_eq_of_le h2 with hlt | heq
  · exact Or.inl hlt
  · exact Or.inr ⟨heq, h1 heq⟩

theorem spreadDom_repl (a c : SpreadQuote)
    (h : (decide ((c.spread = a.spread ∧ c.odds > a.odds) ∨ c.spread > a.spread)) = true) :
    a.spread < c.spread ∨ (a.spread = c.spread ∧ a.odds ≤ c.odds) := by
  rw [decide_eq_true_eq] at h
  rcases h with ⟨heq, hgt⟩ | hlt
  · exact Or.inr ⟨heq.symm, le_of_lt hgt⟩
  · exact Or.inl hlt

theorem spreadDom_trans (a b c : SpreadQuote)
    (h1 : a.spread < b.spread ∨ (a.spread = b.spread ∧ a.odds ≤ b.odds))
    (h2 : b.spread < c.spread ∨ (b.spread = c.spread ∧ b.odds ≤ c.odds)) :
    a.spread < c.spread ∨ (a.spread = c.spread ∧ a.odds ≤ c.odds) := by
  rcases h1 with h1 | ⟨e1, l1⟩ <;> rcases h2 with h2 | ⟨e2, l2⟩
  · exact Or.inl (lt_trans h1 h2)
  · exact Or.inl (e2 ▸ h1)
  · exact Or.inl (e1 ▸ h2)
  · exact Or.inr ⟨e1.trans e2, le_trans l1 l2⟩

theorem overDom_keep (a c : TotalQuote)
    (h : (decide ((c.total = a.total ∧ c.odds > a.odds) ∨ c.total < a.total)) = false) :
    a.total < c.total ∨ (c.total = a.total ∧ c.odds ≤ a.odds) := by
  rw [decide_eq_false_iff_not] at h
  push_neg at h
  obtain ⟨h1, h2⟩ := h
  rcases lt_or_eq_of_le h2 with hlt | heq
  · exact Or.inl hlt
  · exact Or.inr ⟨heq.symm, h1 heq.symm⟩

theorem overDom_repl (a c : TotalQuote)
    (h : (decide ((c.total = a.total ∧ c.odds > a.odds) ∨ c.total < a.total)) = true) :
    c.total < a.total ∨ (a.total = c.total ∧ a.odds ≤ c.odds) := by
  rw [decide_eq_true_eq] at h
  rcases h with ⟨heq, hgt⟩ | hlt
  · exact Or.inr ⟨heq.symm, le_of_lt hgt⟩
  · exact Or.inl hlt

theorem overDom_trans (a b c : TotalQuote)
    (h1 : b.total < a.total ∨ (a.total = b.total ∧ a.odds ≤ b.odds))
    (h2 : c.total < b.total ∨ (b.total = c.total ∧ b.odds ≤ c.odds)) :
    c.total < a.total ∨ (a.total = c.total ∧ a.odds ≤ c.odds) := by
  rcases h1 with h1 | ⟨e1, l1⟩ <;> rcases h2 with h2 | ⟨e2, l2⟩
  · exact Or.inl (lt_trans h2 h1)
  · exact Or.inl (e2 ▸ h1)
  · exact Or.inl (e1 ▸ h2)
  · exact Or.inr ⟨e1.trans e2, le_trans l1 l2⟩

theorem underDom_keep (a c : TotalQuote)
    (h : (decide ((c.total = a.total ∧ c.odds > a.odds) ∨ c.total > a.total)) = false) :
    c.total < a.total ∨ (c.total = a.total ∧ c.odds ≤ a.odds) := by
  rw [decide_eq_false_iff_not] at h
  push_neg at h
  obtain ⟨h1, h2⟩ := h
  rcases lt_or_eq_of_le h2 with hlt | heq
  · exact Or.inl hlt
  · exact Or.inr ⟨heq, h1 heq⟩

theorem underDom_repl (a c : TotalQuote)
    (h : (decide ((c.total = a.total ∧ c.odds > a.odds) ∨ c.total > a.total)) = true) :
    a.total < c.total ∨ (a.total = c.total ∧ a.odds ≤ c.odds) := by
  rw [decide_eq_true_eq] at h
  rcases h with ⟨heq, hgt⟩ | hlt
  · exact Or.inr ⟨heq.symm, le_of_lt hgt⟩
  · exact Or.inl hlt

theorem underDom_trans (a b c : TotalQuote)
    (h1 : a.total < b.total ∨ (a.total = b.total ∧ a.odds ≤ b.odds))
    (h2 : b.total < c.total ∨ (b.total = c.total ∧ b.odds ≤ c.odds)) :
    a.total < c.total ∨ (a.total = c.total ∧ a.odds ≤ c.odds) := by
  rcases h1 with h1 | ⟨e1, l1⟩ <;> rcases h2 with h2 | ⟨e2, l2⟩
  · exact Or.inl (lt_trans h1 h2)
  · exact Or.inl (e2 ▸ h1)
  · exact Or.inl (e1 ▸ h2)
  · exact Or.inr ⟨e1.trans e2, le_trans l1 l2⟩

theorem best_home_moneyline_spec (l : List OddsRec) :
    ((getBestOdds l).home_moneyline = none ↔ ∀ o ∈ l, homeMoneylineOf o = none)
  ∧ (∀ r, (getBestOdds l).home_moneyline = some r →
      (∃ o ∈ l, homeMoneylineOf o = some r)
      ∧ ∀ o ∈ l, ∀ c, homeMoneylineOf o = some c → c.odds ≤ r.odds) := by
  have hfold : (getBestOdds l).home_moneyline = l.foldl bestHomeMoneylineStep none := rfl
  rw [hfold, bestHomeMoneylineStep_eq]
  constructor
  · exact selFold_none_iff _ _ l
  · intro r hr
    constructor
    · rcases selFold_attained _ _ l none r hr with h | h
      · exact absurd h (by simp)
      · exact h
    · intro o ho c hc
      exact (selFold_bound homeMoneylineOf (fun a c => decide (c.odds > a.odds))
        (fun a b => a.odds ≤ b.odds)
        (fun a => le_refl _) mlDom_keep mlDom_repl (fun a b c => le_trans)
        l none r hr).2 o ho c hc

theorem best_away_moneyline_spec (l : List OddsRec) :
    ((getBestOdds l).away_moneyline = none ↔ ∀ o ∈ l, awayMoneylineOf o = none)
  ∧ (∀ r, (getBestOdds l).away_moneyline = some r →
      (∃ o ∈ l, awayMoneylineOf o = some r)
      ∧ ∀ o ∈ l, ∀ c, awayMoneylineOf o = some c → c.odds ≤ r.odds) := by
  have hfold : (getBestOdds l).away_moneyline = l.foldl bestAwayMoneylineStep none := rfl
  rw [hfold, bestAwayMoneylineStep_eq]
  constructor
  · exact selFold_none_iff _ _ l
  · intro r hr
    constructor
    · rcases selFold_attained _ _ l none r hr with h | h
      · exact absurd h (by simp)
      · exact h
    · intro o ho c hc
      exact (selFold_bound awayMoneylineOf (fun a c => decide (c.odds > a.odds))
        (fun a b => a.odds ≤ b.odds)
        (fun a => le_refl _) mlDom_keep mlDom_repl (fun a b c => le_trans)
        l none r hr).2 o ho c hc

theorem best_home_spread_spec (l : List OddsRec) :
    ((getBestOdds l).home_spread = none ↔ ∀ o ∈ l, homeSpreadOf o = none)
  ∧ (∀ r, (getBestOdds l).home_spread = some r →
      (∃ o ∈ l, homeSpreadOf o = some r)
      ∧ ∀ o ∈ l, ∀ c, homeSpreadOf o = some c →
          c.spread < r.spread ∨ (c.spread = r.spread ∧ c.odds ≤ r.odds)) := by
  have hfold : (getBestOdds l).home_spread = l.foldl bestHomeSpreadStep none := rfl
  rw [hfold, bestHomeSpreadStep_eq]
  constructor
  · exact selFold_none_iff _ _ l
  · intro r hr
    constructor
    · rcases selFold_attained _ _ l none r hr with h | h
      · exact absurd h (by simp)
      · exact h
    · intro o ho c hc
      exact (selFold_bound homeSpreadOf
        (fun a c => decide ((c.spread = a.spread ∧ c.odds > a.odds) ∨ c.spread > a.spread))
        (fun a b => a.spread < b.spread ∨ (a.spread = b.spread ∧ a.odds ≤ b.odds))
        (fun a => Or.inr ⟨rfl, le_refl _⟩) spreadDom_keep spreadDom_repl spreadDom_trans
        l none r hr).2 o ho c hc

theorem best_away_spread_spec (l : List OddsRec) :
    ((getBestOdds l).away_spread = none ↔ ∀ o ∈ l, awaySpreadOf o = none)
  ∧ (∀ r, (getBestOdds l).away_spread = some r →
      (∃ o ∈ l, awaySpreadOf o = some r)
      ∧ ∀ o ∈ l, ∀ c, awaySpreadOf o = some c →
          c.spread < r.spread ∨ (c.spread = r.spread ∧ c.odds ≤ r.odds)) := by
  have hfold : (getBestOdds l).away_spread = l.foldl bestAwaySpreadStep none := rfl
  rw [hfold, bestAwaySpreadStep_eq]
  constructor
  · exact selFold_none_iff _ _ l
  · intro r hr
    constructor
    · rcases selFold_attained _ _ l none r hr with h | h
      · exact absurd h (by simp)
      · exact h
    · intro o ho c hc
      exact (selFold_bound awaySpreadOf
        (fun a c => decide ((c.spread = a.spread ∧ c.odds > a.odds) ∨ c.spread > a.spread))
        (fun a b => a.spread < b.spread ∨ (a.spread = b.spread ∧ a.odds ≤ b.odds))
        (fun a => Or.inr ⟨rfl, le_refl _⟩) spreadDom_keep spreadDom_repl spreadDom_trans
        l none r hr).2 o ho c hc

theorem best_over_spec (l : List OddsRec) :
    ((getBestOdds l).over = none ↔ ∀ o ∈ l, overOf o = none)
  ∧ (∀ r, (getBestOdds l).over = some r →
      (∃ o ∈ l, overOf o = some r)
      ∧ ∀ o ∈ l, ∀ c, overOf o = some c →
          r.total < c.total ∨ (c.total = r.total ∧ c.odds ≤ r.odds)) := by
  have hfold : (getBestOdds l).over = l.foldl bestOverStep none := rfl
  rw [hfold, bestOverStep_eq]
  constructor
  · exact selFold_none_iff _ _ l
  · intro r hr
    constructor
    · rcases selFold_attained _ _ l none r hr with h | h
      · exact absurd h (by simp)
      · exact h
    · intro o ho c hc
      exact (selFold_bound overOf
        (fun a c => decide ((c.total = a.total ∧ c.odds > a.odds) ∨ c.total < a.total))
        (fun a b => b.total < a.total ∨ (a.total = b.total ∧ a.odds ≤ b.odds))
        (fun a => Or.inr ⟨rfl, le_refl _⟩) overDom_keep overDom_repl overDom_trans
        l none r hr).2 o ho c hc

theorem best_under_spec (l : List OddsRec) :
    ((getBestOdds l).under = none ↔ ∀ o ∈ l, underOf o = none)
  ∧ (∀ r, (getBestOdds l).under = some r →
      (∃ o ∈ l, underOf o = some r)
      ∧ ∀ o ∈ l, ∀ c, underOf o = some c →
          c.total < r.total ∨ (c.total = r.total ∧ c.odds ≤ r.odds)) := by
  have hfold : (getBestOdds l).under = l.foldl bestUnderStep none := rfl
  rw [hfold, bestUnderStep_eq]
  constructor
  · exact selFold_none_iff _ _ l
  · intro r hr
    constructor
    · rcases selFold_attained _ _ l none r hr with h | h
      · exact absurd h (by simp)
      · exact h
    · intro o ho c hc
      exact (selFold_bound underOf
        (fun a c => decide ((c.total = a.total ∧ c.odds > a.odds) ∨ c.total > a.total))
        (fun a b => a.total < b.total ∨ (a.total = b.total ∧ a.odds ≤ b.odds))
        (fun a => Or.inr ⟨rfl, le_refl _⟩) underDom_keep underDom_repl underDom_trans
        l none r hr).2 o ho c hc

/-! ### Remaining claim theorems, counterexamples and witnesses -/

/-- C1 (code bug): at the failing input — a player-prop leg on a finished,
scored game, with no player statistic anywhere in the store — the evaluator
returns "won" when the random draw is below 0.5 and "lost" otherwise, and
never leaves the leg "pending" as the claim (and the code's own comments)
require. -/
theorem c1_player_prop_random_outcome :
    determineBetStatus true stC1 betC1 = "won"
  ∧ determineBetStatus false stC1 betC1 = "lost"
  ∧ determineBetStatus true stC1 betC1 ≠ "pending"
  ∧ determineBetStatus false stC1 betC1 ≠ "pending" := by
  refine ⟨rfl, rfl, by decide, by decide⟩

/-- C10: a moneyline leg never resolves "push", and on a finished game with
equal final scores it resolves "lost" for both the "home" and the "away"
selection. -/
theorem c10_moneyline_tie_loses (coin : Bool) (st : Store) (b : Bet)
    (hty : b.bet_type = "moneyline") :
    determineBetStatus coin st b ≠ "push"
  ∧ (∀ g s, gameOf st b.game_id = some g → g.status = "finished" →
      g.home_score = some s → g.away_score = some s →
      (b.selection = "home" ∨ b.selection = "away") →
      determineBetStatus coin st b = "lost") := by
  constructor
  · unfold determineBetStatus
    rcases hgo : gameOf st b.game_id with _ | game
    · simp
    · rcases hhs : game.home_score with _ | hs <;>
      rcases has : game.away_score with _ | asc <;>
      by_cases hst : game.status == "finished" <;>
        simp [hst, hty] <;> split_ifs <;> simp_all <;> split <;> simp
  · intro g s hg hfin hhs has hsel
    unfold determineBetStatus
    rw [hg]
    simp only [hfin, hhs, has]
    rcases hsel with h | h <;> simp [hty, h]

/-- C6: for every non-empty leg list with statuses drawn from
pending/won/lost/push, the aggregator returns "pending" iff some leg is
pending; otherwise it returns "lost" if any leg is lost, "won" if all legs
are won, and "partially_won" when all legs are won-or-push with at least
one push (including the all-push case). -/
theorem c6_parlay_aggregation_invariant (bets : List Bet) (hne : bets ≠ [])
    (hmem : ∀ b ∈ bets, b.status = "pending" ∨ b.status = "won" ∨ b.status = "lost" ∨ b.status = "push") :
    (determineParlayStatus bets = "pending" ↔ ∃ b ∈ bets, b.status = "pending")
  ∧ ((∀ b ∈ bets, b.status ≠ "pending") →
      (((∃ b ∈ bets, b.status = "lost") → determineParlayStatus bets = "lost")
      ∧ ((∀ b ∈ bets, b.status = "won") → determineParlayStatus bets = "won")
      ∧ ((∀ b ∈ bets, b.status = "won" ∨ b.status = "push") → (∃ b ∈ bets, b.status = "push") →
          determineParlayStatus bets = "partially_won"))) := by
  have hie : bets.isEmpty = false := by
    cases bets with
    | nil => exact absurd rfl hne
    | cons a l => rfl
  unfold determineParlayStatus
  rw [hie]
  by_cases hp : bets.any (fun b => b.status == "pending") = true
  · rw [List.any_eq_true] at hp
    obtain ⟨b, hb, hbs⟩ := hp
    rw [beq_iff_eq] at hbs
    constructor
    · simp only [hie, Bool.false_eq_true, if_false]
      rw [if_pos]
      · exact ⟨fun _ => ⟨b, hb, hbs⟩, fun _ => rfl⟩
      · rw [List.any_eq_true]; exact ⟨b, hb, by simp [hbs]⟩
    · intro hnp
      exact absurd hbs (hnp b hb)
  · have hp2 : ∀ b ∈ bets, b.status ≠ "pending" := by
      intro b hb
      rw [List.any_eq_true] at hp
      push_neg at hp
      intro heq
      exact absurd (by simp [heq]) (hp b hb)
    simp only [hie, Bool.false_eq_true, if_false]
    rw [if_neg hp]
    constructor
    · constructor
      · intro hres
        exfalso
        split at hres
        · split at hres <;> simp at hres
        · simp at hres
      · rintro ⟨b, hb, hbs⟩
        exact absurd hbs (hp2 b hb)
    · intro _
      refine ⟨?_, ?_, ?_⟩
      · rintro ⟨b, hb, hbs⟩
        rw [if_neg]
        rw [List.all_eq_true]
        push_neg
        exact ⟨b, hb, by simp [hbs]⟩
      · intro hw
        rw [if_pos, if_neg]
        · rw [List.any_eq_true]
          push_neg
          intro b hb
          simp [hw b hb]
        · rw [List.all_eq_true]
          intro b hb
          simp [hw b hb]
      · intro hwp ⟨b, hb, hbs⟩
        rw [if_pos, if_pos]
        · rw [List.any_eq_true]
          exact ⟨b, hb, by simp [hbs]⟩
        · rw [List.all_eq_true]
          intro a ha
          rcases hwp a ha with h | h <;> simp [h]

/-- C7: for a spread leg on a finished game with both scores, the evaluator
adds the DraftKings-quoted spread for the selected side to that side's
score and compares with the opponent's score (greater won, less lost,
equal push); a missing DraftKings quote or a null spread column leaves the
leg "pending". -/
theorem c7_spread_settlement (coin : Bool) (st : Store) (b : Bet) (g : Game) (hs asc : Int)
    (hty : b.bet_type = "spread")
    (hg : gameOf st b.game_id = some g)
    (hfin : g.status = "finished")
    (hhs : g.home_score = some hs)
    (has : g.away_score = some asc) :
    (b.selection = "home" →
      (dkOdds st g.id = none → determineBetStatus coin st b = "pending")
      ∧ (∀ o, dkOdds st g.id = some o →
          (o.home_spread = none → determineBetStatus coin st b = "pending")
          ∧ (∀ v, o.home_spread = some v →
              determineBetStatus coin st b =
                (if (hs : ℚ) + v > (asc : ℚ) then "won"
                 else if (hs : ℚ) + v < (asc : ℚ) then "lost" else "push"))))
  ∧ (b.selection = "away" →
      (dkOdds st g.id = none → determineBetStatus coin st b = "pending")
      ∧ (∀ o, dkOdds st g.id = some o →
          (o.away_spread = none → determineBetStatus coin st b = "pending")
          ∧ (∀ v, o.away_spread = some v →
              determineBetStatus coin st b =
                (if (asc : ℚ) + v > (hs : ℚ) then "won"
                 else if (asc : ℚ) + v < (hs : ℚ) then "lost" else "push")))) := by
  constructor
  · intro hsel
    constructor
    · intro hdk
      unfold determineBetStatus
      rw [hg]
      simp [hfin, hhs, has, hty, hsel, hdk]
    · intro o hdk
      constructor
      · intro hsp
        unfold determineBetStatus
        rw [hg]
        simp [hfin, hhs, has, hty, hsel, hdk, hsp]
      · intro v hsp
        unfold determineBetStatus
        rw [hg]
        simp [hfin, hhs, has, hty, hsel, hdk, hsp]
  · intro hsel
    constructor
    · intro hdk
      unfold determineBetStatus
      rw [hg]
      simp [hfin, hhs, has, hty, hsel, hdk]
    · intro o hdk
      constructor
      · intro hsp
        unfold determineBetStatus
        rw [hg]
        simp [hfin, hhs, has, hty, hsel, hdk, hsp]
      · intro v hsp
        unfold determineBetStatus
        rw [hg]
        simp [hfin, hhs, has, hty, hsel, hdk, hsp]

/-- C8: on a finished, scored game with a quoted total, an over leg and an
under leg on that line never both resolve "won", and they resolve "push"
together exactly when the final score sum equals the quoted total. -/
theorem c8_total_settlement_duality (cO cU : Bool) (st : Store) (bo bu : Bet) (g : Game) (o : OddsRec)
    (t : ℚ) (hs asc : Int)
    (hto : bo.bet_type = "over_under") (hso : bo.selection = "over")
    (htu : bu.bet_type = "over_under") (hsu : bu.selection = "under")
    (hgid : bu.game_id = bo.game_id)
    (hg : gameOf st bo.game_id = some g)
    (hfin : g.status = "finished") (hhs : g.home_score = some hs) (has : g.away_score = some asc)
    (hdk : dkOdds st g.id = some o) (htot : o.over_under = some t) :
    ¬(determineBetStatus cO st bo = "won" ∧ determineBetStatus cU st bu = "won")
  ∧ ((determineBetStatus cO st bo = "push" ∧ determineBetStatus cU st bu = "push")
      ↔ (hs : ℚ) + (asc : ℚ) = t) := by
  have ho : determineBetStatus cO st bo =
      (if (hs : ℚ) + (asc : ℚ) > t then "won"
       else if (hs : ℚ) + (asc : ℚ) < t then "lost" else "push") := by
    unfold determineBetStatus
    rw [hg]
    simp [hfin, hhs, has, hto, hso, hdk, htot]
  have hu : determineBetStatus cU st bu =
      (if (hs : ℚ) + (asc : ℚ) < t then "won"
       else if (hs : ℚ) + (asc : ℚ) > t then "lost" else "push") := by
    unfold determineBetStatus
    rw [hgid, hg]
    simp [hfin, hhs, has, htu, hsu, hdk, htot]
  rw [ho, hu]
  rcases lt_trichotomy ((hs : ℚ) + (asc : ℚ)) t with h | h | h
  · simp [h, not_lt.mpr h.le, ne_of_lt h]
  · simp [h, lt_irrefl]
  · simp [h, not_lt.mpr h.le, (ne_of_lt h).symm]

/-- C5 (amended): settlement never raises at all; every not-yet-resolvable
condition — game missing or unfinished, a null final score (even on a
"finished" game, which the original claim said would raise or be
reported), a missing DraftKings quote, or a null spread/total column —
yields "pending".  (Missing player statistics are not covered: the
player-prop placeholder settles randomly, see C1.) -/
theorem c5_unresolvable_yields_pending (coin : Bool) (st : Store) (b : Bet)
    (h : gameOf st b.game_id = none
      ∨ (∃ g, gameOf st b.game_id = some g ∧
          (¬ g.status = "finished" ∨ g.home_score = none ∨ g.away_score = none))
      ∨ (b.bet_type = "spread" ∧
          ∃ g, gameOf st b.game_id = some g ∧
            (dkOdds st g.id = none
             ∨ ∃ o, dkOdds st g.id = some o ∧
                ((b.selection = "home" ∧ o.home_spread = none)
                 ∨ (b.selection = "away" ∧ o.away_spread = none))))
      ∨ (b.bet_type = "over_under" ∧
          ∃ g, gameOf st b.game_id = some g ∧
            (dkOdds st g.id = none
             ∨ ∃ o, dkOdds st g.id = some o ∧ o.over_under = none))) :
    determineBetStatus coin st b = "pending" := by
  rcases h with h | ⟨g, hg, hbad⟩ | ⟨hty, g, hg, hbad⟩ | ⟨hty, g, hg, hbad⟩
  · unfold determineBetStatus
    rw [h]
  · unfold determineBetStatus
    rw [hg]
    rcases hbad with hst | hsc | hsc
    · simp [hst]
    · by_cases hstA : g.status = "finished" <;>
        rcases haw : g.away_score with _ | w <;> simp [hsc, haw, hstA]
    · by_cases hstA : g.status = "finished" <;>
        rcases hhw : g.home_score with _ | w <;> simp [hsc, hhw, hstA]
  · unfold determineBetStatus
    rw [hg]
    by_cases hstA : g.status = "finished"
    · rcases hhw : g.home_score with _ | x <;> rcases haw : g.away_score with _ | y <;>
        simp only [hhw, haw, hstA]
      · simp
      · simp
      · simp
      · rcases hbad with hdk | ⟨o, hdk, hbb⟩
        · simp [hty, hdk]
        · rcases hbb with ⟨hsel, hsp⟩ | ⟨hsel, hsp⟩ <;> simp [hty, hdk, hsel, hsp]
    · simp [hstA]
  · unfold determineBetStatus
    rw [hg]
    by_cases hstA : g.status = "finished"
    · rcases hhw : g.home_score with _ | x <;> rcases haw : g.away_score with _ | y <;>
        simp only [hhw, haw, hstA]
      · simp
      · simp
      · simp
      · rcases hbad with hdk | ⟨o, hdk, hsp⟩
        · simp [hty, hdk]
        · simp [hty, hdk, hsp]
    · simp [hstA]

/-- C2 counterexample: after sweeping `stC2a` once, a second sweep on
unchanged data still returns 1, not 0; and on `stC2b`, whose stuck-pending
parlay holds a player-prop leg, a second sweep with a different random
draw changes a bet status, so the two-sweep store differs. -/
theorem c2_counterexample :
    (updateParlayStatuses (fun _ => true) (updateParlayStatuses (fun _ => true) stC2a).1).2 = 1
  ∧ (updateParlayStatuses (fun _ => false) (updateParlayStatuses (fun _ => true) stC2b).1).1
      ≠ (updateParlayStatuses (fun _ => true) stC2b).1 := by
  constructor
  · decide
  · decide

/-- C3 counterexample: sweeping `stC3` returns 1 although no parlay left
"pending" (the only leg settles "pending" for lack of a quoted total). -/
theorem c3_counterexample :
    (updateParlayStatuses (fun _ => true) stC3).2 = 1
  ∧ ((updateParlayStatuses (fun _ => true) stC3).1.parlays.filter
      (fun p => !(p.status == "pending"))).length = 0 := by decide

/-- C4 counterexample: in `stC4` one game is "finished" with null scores,
yet the parlay is processed (count 1) and left partially evaluated: the
scored game's leg is written "won" while the other leg stays "pending". -/
theorem c4_counterexample :
    (updateParlayStatuses (fun _ => true) stC4).1.bets.map Bet.status = ["won", "pending"]
  ∧ (updateParlayStatuses (fun _ => true) stC4).2 = 1
  ∧ (updateParlayStatuses (fun _ => true) stC4).1.parlays.map Parlay.status = ["pending"] := by
  decide

/-- C5 counterexample: a moneyline leg on a "finished" game with null
scores yields "pending" — no exception is raised and nothing is reported
for this malformed datum; and a player-prop leg with no statistic settles
"won"/"lost" by the draw instead of staying "pending". -/
theorem c5_counterexample :
    determineBetStatus true stC5 ⟨1, 2, "moneyline", "home", "pending"⟩ = "pending"
  ∧ determineBetStatus true stC5 ⟨1, 1, "player_prop", "over", "pending"⟩ = "won"
  ∧ determineBetStatus false stC5 ⟨1, 1, "player_prop", "over", "pending"⟩ = "lost" := by
  decide

/-- C9: per market, the selection returns the empty record exactly when no
quote populates the market (never an error), and otherwise a populated
record attained by some quote that dominates every candidate: for
moneylines the highest price; for home/away spreads the lexicographically
best (larger algebraic line, then higher price at an identical line); for
over the smaller total, for under the larger total, each tie-broken by the
higher price. -/
theorem c9_best_odds_selection (odds_list : List OddsRec) :
    (((getBestOdds odds_list).home_moneyline = none
        ↔ ∀ o ∈ odds_list, homeMoneylineOf o = none)
      ∧ (∀ r, (getBestOdds odds_list).home_moneyline = some r →
          (∃ o ∈ odds_list, homeMoneylineOf o = some r)
          ∧ ∀ o ∈ odds_list, ∀ c, homeMoneylineOf o = some c → c.odds ≤ r.odds))
  ∧ (((getBestOdds odds_list).away_moneyline = none
        ↔ ∀ o ∈ odds_list, awayMoneylineOf o = none)
      ∧ (∀ r, (getBestOdds odds_list).away_moneyline = some r →
          (∃ o ∈ odds_list, awayMoneylineOf o = some r)
          ∧ ∀ o ∈ odds_list, ∀ c, awayMoneylineOf o = some c → c.odds ≤ r.odds))
  ∧ (((getBestOdds odds_list).home_spread = none
        ↔ ∀ o ∈ odds_list, homeSpreadOf o = none)
      ∧ (∀ r, (getBestOdds odds_list).home_spread = some r →
          (∃ o ∈ odds_list, homeSpreadOf o = some r)
          ∧ ∀ o ∈ odds_list, ∀ c, homeSpreadOf o = some c →
              c.spread < r.spread ∨ (c.spread = r.spread ∧ c.odds ≤ r.odds)))
  ∧ (((getBestOdds odds_list).away_spread = none
        ↔ ∀ o ∈ odds_list, awaySpreadOf o = none)
      ∧ (∀ r, (getBestOdds odds_list).away_spread = some r →
          (∃ o ∈ odds_list, awaySpreadOf o = some r)
          ∧ ∀ o ∈ odds_list, ∀ c, awaySpreadOf o = some c →
              c.spread < r.spread ∨ (c.spread = r.spread ∧ c.odds ≤ r.odds)))
  ∧ (((getBestOdds odds_list).over = none
        ↔ ∀ o ∈ odds_list, overOf o = none)
      ∧ (∀ r, (getBestOdds odds_list).over = some r →
          (∃ o ∈ odds_list, overOf o = some r)
          ∧ ∀ o ∈ odds_list, ∀ c, overOf o = some c →
              r.total < c.total ∨ (c.total = r.total ∧ c.odds ≤ r.odds)))
  ∧ (((getBestOdds odds_list).under = none
        ↔ ∀ o ∈ odds_list, underOf o = none)
      ∧ (∀ r, (getBestOdds odds_list).under = some r →
          (∃ o ∈ odds_list, underOf o = some r)
          ∧ ∀ o ∈ odds_list, ∀ c, underOf o = some c →
              c.total < r.total ∨ (c.total = r.total ∧ c.odds ≤ r.odds))) :=
  ⟨best_home_moneyline_spec odds_list, best_away_moneyline_spec odds_list,
   best_home_spread_spec odds_list, best_away_spread_spec odds_list,
   best_over_spec odds_list, best_under_spec odds_list⟩

/-- Witness for C2: the theorem applied to the concrete store `stC2a`. -/
theorem c2_sweep_idempotent_witness :
    noProps stC2a = true
  ∧ (updateParlayStatuses (fun _ => true) (updateParlayStatuses (fun _ => true) stC2a).1).1
      = (updateParlayStatuses (fun _ => true) stC2a).1 :=
  ⟨by decide, c2_sweep_idempotent (fun _ => true) (fun _ => true) stC2a (by decide)⟩

/-- Witness for C4: the theorem applied to `stC4w`, whose only parlay
references a scheduled game; the sweep returns it untouched with count 0. -/
theorem c4_sweep_skip_unfinished_witness :
    updateParlayStatuses (fun _ => true) stC4w = (stC4w, 0) :=
  c4_sweep_skip_unfinished (fun _ => true) stC4w (by decide)

/-- Witness for C5: the theorem applied to a bet whose game id is absent. -/
theorem c5_unresolvable_yields_pending_witness :
    gameOf stC1 betNoGame.game_id = none
  ∧ determineBetStatus true stC1 betNoGame = "pending" :=
  ⟨rfl, c5_unresolvable_yields_pending true stC1 betNoGame (Or.inl rfl)⟩

/-- Witness for C6: a won leg plus a push leg aggregate to "partially_won". -/
theorem c6_parlay_aggregation_invariant_witness :
    determineParlayStatus wBets = "partially_won" :=
  ((c6_parlay_aggregation_invariant wBets (by decide) (by decide)).2
    (by decide)).2.2 (by decide) (by decide)

/-- Witness for C7: home spread -3/2 on the 4-2 game settles "won". -/
theorem c7_spread_settlement_witness :
    determineBetStatus true stC1 betSpreadHome = "won" := by
  have h := (((c7_spread_settlement true stC1 betSpreadHome gFin 4 2 rfl rfl rfl rfl rfl).1
    rfl).2 oDK rfl).2 (-3/2) rfl
  rw [h, if_pos (by norm_num)]

/-- Witness for C8: over and under on the 13/2 total of the 4-2 game do
not both win. -/
theorem c8_total_settlement_duality_witness :
    ¬(determineBetStatus true stC1 betOver = "won"
      ∧ determineBetStatus true stC1 betUnder = "won") :=
  (c8_total_settlement_duality true true stC1 betOver betUnder gFin oDK (13/2) 4 2
    rfl rfl rfl rfl rfl rfl rfl rfl rfl rfl rfl).1

/-- Witness for C10: the home moneyline leg on the 3-3 game settles "lost". -/
theorem c10_moneyline_tie_loses_witness :
    determineBetStatus true stTie betTieHome = "lost" :=
  (c10_moneyline_tie_loses true stTie betTieHome rfl).2 gTie 3 rfl rfl rfl rfl (Or.inl rfl)

end GAGB
